import Mathlib

/-!
Shallow embedding of `formatter.go` from jialijelly/go-custom-logger.

Go strings are modelled as Lean `String` (lists of characters; all template
tokens are ASCII, so character-level matching coincides with Go's byte-level
matching on valid UTF-8 input).  Go `time.Time` is modelled by its observable
behaviour in this file: the function `layout ↦ t.Format(layout)`.  The
heterogeneous `logrus.Fields` map (`map[string]interface{}`) is modelled as an
association list together with an iteration order (Go map iteration order is
unspecified, so a theorem about "the" output of a map-ranging loop must hold
for, or is refuted by, particular orders).  A Go panic (failed type assertion)
is modelled by `Option`: `none` is a panic, `some` a normal return.
-/

namespace Logger

/-! ### Go string primitives: `strings.Contains` and `strings.Replace(_,_,_,1)` -/

/-- Character-level model of `strings.Contains`: does `sub` occur in the
haystack (third argument style: haystack last)? -/
def hasSubL (sub : List Char) : List Char → Bool
  | [] => sub.isEmpty
  | c :: rest => sub.isPrefixOf (c :: rest) || hasSubL sub rest

/-- Replace the first occurrence of `old` (nonempty) in the haystack by `new`;
model of `strings.Replace(s, old, new, 1)` for nonempty `old`. -/
def replFirstL (old new : List Char) : List Char → List Char
  | [] => []
  | c :: rest =>
    if old.isPrefixOf (c :: rest) then new ++ (c :: rest).drop old.length
    else c :: replFirstL old new rest

/-- Model of `strings.Contains(s, sub)`. -/
def containsStr (s sub : String) : Bool := hasSubL sub.data s.data

/-- Model of `strings.Replace(s, old, new, 1)`.  For empty `old`, Go inserts `new`
once at the start of `s`. -/
def replaceFirst (s old new : String) : String :=
  if old = "" then new ++ s else ⟨replFirstL old.data new.data s.data⟩

/-- Decidable sufficient condition that occurrences of `old` and `sub` in a
common string can never overlap (no suffix of one matches a prefix of the
other at any shift, and neither contains the other). -/
def noOverlapB (old sub : List Char) : Bool :=
  ((List.range old.length).all fun d =>
      !((old.drop d).isPrefixOf sub || sub.isPrefixOf (old.drop d)))
  && ((List.range sub.length).all fun e =>
      decide (e = 0) || !((sub.drop e).isPrefixOf old || old.isPrefixOf (sub.drop e)))

/-! ### Dynamic field values (`interface{}` values stored in `logrus.Fields`) -/

/-- A dynamic Go value as stored in `logrus.Fields`: a string, an integer, a
nested `map[string]interface{}` (with its iteration order), or a value that
`fmt` prints via its default representation and that `encoding/json` cannot
marshal (e.g. a `func` or `chan` value, printed as a pointer). -/
inductive Value where
  | vstr (s : String)
  | vint (n : Int)
  | vmap (entries : List (String × Value))
  | vfunc (repr : String)

/-- The type assertion `v.(string)`: `some` if it succeeds, `none` for the
panic of an unchecked failed assertion. -/
def Value.asString : Value → Option String
  | .vstr s => some s
  | _ => none

/-- Insert into a key-sorted association list (both Go `fmt` since 1.12 and
`encoding/json` render map keys in sorted order). -/
def insertPair (p : String × String) : List (String × String) → List (String × String)
  | [] => [p]
  | q :: rest => if p.1 < q.1 then p :: q :: rest else q :: insertPair p rest

/-- Sort an association list by key (insertion sort; keys of a Go map are
distinct, so stability is irrelevant). -/
def sortPairs : List (String × String) → List (String × String)
  | [] => []
  | p :: rest => insertPair p (sortPairs rest)

mutual

/-- Model of `fmt.Sprintf("%v", val)`: the default Go string representation.  Maps
print as `map[k1:v1 k2:v2]` with keys sorted. -/
def gostring : Value → String
  | Value.vstr s => s
  | Value.vint n => toString n
  | Value.vfunc r => r
  | Value.vmap es =>
    "map[" ++ " ".intercalate ((sortPairs (stringifyPairs es)).map
      (fun p => p.1 ++ ":" ++ p.2)) ++ "]"

/-- Render each entry value with `gostring`, keeping keys. -/
def stringifyPairs : List (String × Value) → List (String × String)
  | [] => []
  | (k, v) :: rest => (k, gostring v) :: stringifyPairs rest

end

/-- Lower-case hex digit, for JSON `\u00XX` escapes. -/
def hexDigit (n : Nat) : String :=
  if n < 10 then toString n else String.singleton (Char.ofNat (97 + n - 10))

/-- JSON escaping of one character as done by `encoding/json` with the
default (HTML-escaping) encoder. -/
def jsonEscapeChar (c : Char) : String :=
  if c = '"' then "\\\""
  else if c = '\\' then "\\\\"
  else if c = '\n' then "\\n"
  else if c = '\r' then "\\r"
  else if c = '\t' then "\\t"
  else if c.toNat < 32 then "\\u00" ++ hexDigit (c.toNat / 16) ++ hexDigit (c.toNat % 16)
  else if c = '<' then "\\u003c"
  else if c = '>' then "\\u003e"
  else if c = '&' then "\\u0026"
  else if c.toNat = 8232 then "\\u2028"
  else if c.toNat = 8233 then "\\u2029"
  else String.singleton c

/-- JSON string literal for `s`, as produced by `encoding/json`. -/
def jsonQuote (s : String) : String :=
  "\"" ++ String.join (s.data.map jsonEscapeChar) ++ "\""

mutual

/-- Model of `json.Marshal` of a dynamic value: `none` models a marshaling error
(`json.UnsupportedTypeError` for func/chan values); map keys are sorted. -/
def jsonMarshalValue : Value → Option String
  | Value.vstr s => some (jsonQuote s)
  | Value.vint n => some (toString n)
  | Value.vfunc _ => none
  | Value.vmap es =>
    (jsonMarshalEntries es).map (fun ps =>
      "\x7b" ++ ",".intercalate ((sortPairs ps).map
        (fun p => jsonQuote p.1 ++ ":" ++ p.2)) ++ "\x7d")

/-- Marshal every entry value; fail if any value fails. -/
def jsonMarshalEntries : List (String × Value) → Option (List (String × String))
  | [] => some []
  | (k, v) :: rest =>
    match jsonMarshalValue v, jsonMarshalEntries rest with
    | some s, some ps => some ((k, s) :: ps)
    | _, _ => none

end

/-! ### `fmt` rendering of `[]byte` values -/

/-- UTF-8 bytes of a string, as natural numbers (the contents of
`String.toUTF8`, i.e. of a Go string's byte array). -/
def goBytes (s : String) : List Nat :=
  (s.data.flatMap String.utf8EncodeChar).map (fun b => b.toNat)

/-- Model of `fmt.Sprintf("%v", bs)` for a `[]byte` value: Go prints a byte slice as
its decimal byte values in brackets, e.g. `[104 105]`. -/
def goSprintBytes (bs : List Nat) : String :=
  "[" ++ " ".intercalate (bs.map toString) ++ "]"

/-! ### The log record (`logrus.Entry`) -/

/-- Model of `logrus.Level`; its `String()` method yields the lower-case name
(`logrus.WarnLevel.String()` is `"warning"`). -/
inductive Level where
  | panicLevel | fatalLevel | errorLevel | warnLevel | infoLevel | debugLevel | traceLevel
deriving DecidableEq

/-- Model of `logrus.Level.String()`. -/
def Level.string : Level → String
  | .panicLevel => "panic"
  | .fatalLevel => "fatal"
  | .errorLevel => "error"
  | .warnLevel => "warning"
  | .infoLevel => "info"
  | .debugLevel => "debug"
  | .traceLevel => "trace"

/-- Model of `strings.ToUpper` (the level names are plain ASCII). -/
def strToUpper (s : String) : String := ⟨s.data.map Char.toUpper⟩

/-- Model of `fmt.Sprintf("%5s", s)`: right-justify to width 5 by left-padding with
spaces. -/
def pad5 (s : String) : String :=
  if s.length < 5 then ⟨List.replicate (5 - s.length) ' '⟩ ++ s else s

/-- The part of a `logrus.Entry` the formatter reads: time (modelled by its
`Format` method), level, message, and the `Data` field map.  The association
list carries both the map contents and the iteration order that a particular
`range` over the Go map happens to produce (Go leaves that order
unspecified). -/
structure Entry where
  time : String → String
  level : Level
  message : String
  data : List (String × Value)

/-! ### Constants of `formatter.go` -/

def RequestIdKey : String := "X-Request-ID"

/-- The layout string `time.RFC3339`. -/
def defaultTimeFormat : String := "2006-01-02T15:04:05Z07:00"

def defaultDataSeparator : String := " |"

def logTimeKey : String := "<time>"
def logLevelKey : String := "<level>"
def logIdKey : String := "<id>"
def logMsgKey : String := "<msg>"

/-- Value of `fmt.Sprintf("[%v] [%v] [%v] %v", logTimeKey, logLevelKey, logIdKey, logMsgKey)`. -/
def defaultMsgFormat : String :=
  "[" ++ logTimeKey ++ "] [" ++ logLevelKey ++ "] [" ++ logIdKey ++ "] " ++ logMsgKey

/-- The package-level `FormatIdentifier` function value. -/
def FormatIdentifier (identifier : String) : String := "<" ++ identifier ++ ">"

/-! ### Formatter configuration and builder surface -/

/-- The `customFormatter` struct. -/
structure customFormatter where
  isDefault : Bool
  jsonOutput : Bool
  textDataSeparator : String
  MsgPrefixStr : String
  MsgFormat : String
  TimeFormat : String

/-- The constructor `DefaultFormatter(prefix)`. -/
def DefaultFormatter (p : String) : customFormatter :=
  { isDefault := true
    jsonOutput := false
    textDataSeparator := defaultDataSeparator
    MsgPrefixStr := p
    MsgFormat := defaultMsgFormat
    TimeFormat := defaultTimeFormat }

/-- The constructor `NewFormatter()`: every field other than `TimeFormat` keeps its Go zero
value (`false` / empty string). -/
def NewFormatter : customFormatter :=
  { isDefault := false
    jsonOutput := false
    textDataSeparator := ""
    MsgPrefixStr := ""
    MsgFormat := ""
    TimeFormat := defaultTimeFormat }

def SetLogFormat (f : customFormatter) (format : String) : customFormatter :=
  { f with MsgFormat := format }

def SetLogPrefixStr (f : customFormatter) (p : String) : customFormatter :=
  { f with MsgPrefixStr := p }

def SetDataSeparator (f : customFormatter) (sep : String) : customFormatter :=
  { f with textDataSeparator := sep }

def SetJsonOutput (f : customFormatter) : customFormatter :=
  { f with jsonOutput := true }

def SetTimeFormat (f : customFormatter) (format : String) : customFormatter :=
  { f with TimeFormat := format }

/-! ### `getMessage` (template engine), split into its four source stages -/

/-- Lines 107–109: start from `MsgFormat`, substitute `<time>` (formatted per
the configured layout) and `<level>` (upper-cased, width-5 justified). -/
def initialOutput (f : customFormatter) (e : Entry) : String :=
  replaceFirst (replaceFirst f.MsgFormat logTimeKey (e.time f.TimeFormat))
    logLevelKey (pad5 (strToUpper (Level.string e.level)))

/-- Lines 111–115: if the id field exists, substitute `<id>` with its value
via the unchecked assertion `id.(string)` (`none` = panic on a non-string
value); otherwise, only for the default template, drop `" [<id>]"`. -/
def resolveId (f : customFormatter) (e : Entry) (output : String) : Option String :=
  match List.lookup RequestIdKey e.data with
  | some v => (Value.asString v).map (fun s => replaceFirst output logIdKey s)
  | none => some (if f.isDefault then replaceFirst output (" [" ++ logIdKey ++ "]") "" else output)

/-- Loop body of lines 118–127: substitute `<k>` by the field value's default
representation if the token occurs in the current output. -/
def customSub (acc : String) (kv : String × Value) : String :=
  if kv.1 = RequestIdKey then acc
  else if containsStr acc (FormatIdentifier kv.1) then
    replaceFirst acc (FormatIdentifier kv.1) (gostring kv.2)
  else acc

/-- Lines 117–127: run `customSub` over the field map in iteration order. -/
def applyDataTokens (data : List (String × Value)) (output : String) : String :=
  data.foldl customSub output

/-- Lines 129–133: substitute `<msg>` when the message is non-empty, else
drop `" [<msg>]"` (note: not conditioned on the default-template flag). -/
def resolveMsg (message output : String) : String :=
  if message ≠ "" then replaceFirst output logMsgKey message
  else replaceFirst output (" [" ++ logMsgKey ++ "]") ""

/-- Function `getMessage` (lines 106–136). -/
def getMessage (f : customFormatter) (e : Entry) : Option String :=
  (resolveId f e (initialOutput f e)).map
    (fun o => resolveMsg e.message (applyDataTokens e.data o))

/-! ### Text renderer -/

/-- Loop body of lines 164–184: skip the id key; skip a field whose token
still occurs in the output; otherwise append `sep + " k = v"`, where a nested
map value is JSON-encoded when possible (the `[]byte` result being printed by
`%v` as decimal bytes) and anything else (or a failed encoding) uses the
default representation. -/
def textDataStep (sep : String) (acc : String) (kv : String × Value) : String :=
  if kv.1 = RequestIdKey then acc
  else if containsStr acc (FormatIdentifier kv.1) then acc
  else
    match kv.2 with
    | Value.vmap m =>
      match jsonMarshalValue (Value.vmap m) with
      | some j => acc ++ sep ++ " " ++ kv.1 ++ " = " ++ goSprintBytes (goBytes j)
      | none => acc ++ sep ++ " " ++ kv.1 ++ " = " ++ gostring kv.2
    | _ => acc ++ sep ++ " " ++ kv.1 ++ " = " ++ gostring kv.2

/-- Function `textFormat` (lines 162–186): templated message, appended fields, then
`fmt.Sprintln`.  It always returns a nil error (but propagates the panic of
`getMessage`, modelled by `none`). -/
def textFormat (f : customFormatter) (e : Entry) : Option (String × Option Unit) :=
  (getMessage f e).map
    (fun m => (e.data.foldl (textDataStep f.textDataSeparator) m ++ "\n", none))

/-! ### JSON renderer -/

/-- The `jsonOutputFormat` struct (fields marshal in declaration order; `ID`
and `Data` carry `omitempty`). -/
structure jsonOutputFormat where
  Timestamp : String
  Level : String
  ID : Option String
  Message : String
  Data : List (String × Value)

/-- Lines 148–157: build the `jsonOutputFormat` value.  The `Message` field
runs `getMessage` (which can panic on a non-string id before the explicit
assertion on line 155 is reached); `Timestamp` uses the fixed
`defaultTimeFormat`, not the configured layout. -/
def jsonOutputRecord (f : customFormatter) (e : Entry) : Option jsonOutputFormat :=
  (getMessage f e).bind (fun msg =>
    let base : jsonOutputFormat :=
      { Timestamp := e.time defaultTimeFormat
        Level := strToUpper (Level.string e.level)
        ID := none
        Message := msg
        Data := e.data }
    match List.lookup RequestIdKey e.data with
    | some v => (Value.asString v).map (fun s => { base with ID := some s })
    | none => some base)

/-- Model of `json.Marshal(&format)` for the output struct: struct fields in
declaration order, `id` omitted when absent, `data` omitted when the field
map is empty; a marshaling failure inside `data` fails the whole marshal
(`none`, with Go then returning nil bytes). -/
def marshalJsonOutput (r : jsonOutputFormat) : Option String :=
  let dataPart : Option (Option String) :=
    if r.Data.isEmpty then some none
    else (jsonMarshalValue (Value.vmap r.Data)).map some
  dataPart.map (fun dp =>
    "\x7b\"timestamp\":" ++ jsonQuote r.Timestamp
      ++ ",\"level\":" ++ jsonQuote r.Level
      ++ (match r.ID with
          | some i => ",\"id\":" ++ jsonQuote i
          | none => "")
      ++ ",\"message\":" ++ jsonQuote r.Message
      ++ (match dp with
          | some d => ",\"data\":" ++ d
          | none => "")
      ++ "\x7d")

/-- Function `jsonFormat` (lines 147–160): marshal the struct and return
`[]byte(fmt.Sprintln(output))` — `output` being a `[]byte`, `fmt.Sprintln`
renders its decimal byte values, not the JSON text.  On a marshal error Go's
`output` is nil (printed `[]`) and the error is returned alongside. -/
def jsonFormat (f : customFormatter) (e : Entry) : Option (String × Option Unit) :=
  (jsonOutputRecord f e).map (fun r =>
    match marshalJsonOutput r with
    | some s => (goSprintBytes (goBytes s) ++ "\n", none)
    | none => (goSprintBytes (goBytes "") ++ "\n", some ()))

/-! ### Dispatch -/

/-- Function `Format` (lines 96–104).  The empty-template branch delegates to
`logrus.TextFormatter`, an external collaborator that is not part of this
repository; it is passed in as an arbitrary `baseline` function. -/
def Format (baseline : Entry → Option (String × Option Unit))
    (f : customFormatter) (e : Entry) : Option (String × Option Unit) :=
  if f.MsgFormat = "" then baseline e
  else if f.jsonOutput then jsonFormat f e
  else textFormat f e

/-! ### Builder-call sequences that never touch the separator (for C9) -/

/-- One chained setter call other than `SetDataSeparator`. -/
inductive OtherSetter where
  | fmtCall (s : String)
  | pfxCall (s : String)
  | jsonCall
  | timeCall (s : String)

/-- Apply one non-separator setter. -/
def applySetter (f : customFormatter) : OtherSetter → customFormatter
  | .fmtCall s => SetLogFormat f s
  | .pfxCall s => SetLogPrefixStr f s
  | .jsonCall => SetJsonOutput f
  | .timeCall s => SetTimeFormat f s

/-- Apply a chain of non-separator setter calls. -/
def applySetters (f : customFormatter) (l : List OtherSetter) : customFormatter :=
  l.foldl applySetter f

/-! ### Concrete inputs used to evaluate the code on specific scenarios -/

/-- A concrete record time: its `Format` method returns this RFC3339 string
for every layout. -/
def timeFnW : String → String := fun _ => "2020-01-02T03:04:05Z"

/-- A concrete stand-in for the external `logrus.TextFormatter` baseline. -/
def blW : Entry → Option (String × Option Unit) := fun _ => none

def cfgC1 : customFormatter := SetJsonOutput (DefaultFormatter "")

def eC1 : Entry :=
  { time := timeFnW, level := Level.infoLevel, message := "hi", data := [] }

def cfgC2 : customFormatter :=
  SetDataSeparator (SetLogFormat NewFormatter "pre <region>") " |"

def eC2 : Entry :=
  { time := timeFnW, level := Level.infoLevel, message := ""
    data := [("region", Value.vstr "us-east")] }

def cfgC3 : customFormatter := SetDataSeparator (SetLogFormat NewFormatter "m") " |"

/-- The field map `{"a": "1", "b": "2"}` as one possible iteration order. -/
def e3A : Entry :=
  { time := timeFnW, level := Level.infoLevel, message := ""
    data := [("a", Value.vstr "1"), ("b", Value.vstr "2")] }

/-- The same field map in the other iteration order. -/
def e3B : Entry :=
  { time := timeFnW, level := Level.infoLevel, message := ""
    data := [("b", Value.vstr "2"), ("a", Value.vstr "1")] }

def cfgC4 : customFormatter := SetLogFormat NewFormatter "hello [<msg>]"

def eC4 : Entry :=
  { time := timeFnW, level := Level.infoLevel, message := "", data := [] }

def cfgC5 : customFormatter := SetLogFormat NewFormatter "a <id>"

/-- Lacks `X-Request-ID` but has a field literally keyed `"id"`. -/
def eC5 : Entry :=
  { time := timeFnW, level := Level.infoLevel, message := "m"
    data := [("id", Value.vstr "X")] }

def cfgC5w : customFormatter := SetLogFormat NewFormatter "a <id> b"

def eC5w : Entry :=
  { time := timeFnW, level := Level.infoLevel, message := "", data := [] }

def cfgC7 : customFormatter := SetLogFormat NewFormatter "m"

def eC7 : Entry :=
  { time := timeFnW, level := Level.infoLevel, message := "", data := [] }

/-- A nested map value that `json.Marshal` rejects (it contains a func). -/
def badMap : List (String × Value) := [("f", Value.vfunc "0x4711")]

def cfgC9 : customFormatter := SetLogFormat NewFormatter "x"

def eC9 : Entry :=
  { time := timeFnW, level := Level.infoLevel, message := ""
    data := [("region", Value.vstr "us-east")] }

/-- Entry with `X-Request-ID` bound to a non-string value. -/
def eBadId : Entry :=
  { time := timeFnW, level := Level.infoLevel, message := ""
    data := [("X-Request-ID", Value.vint 7)] }

/-! ### Lemmas about the string primitives -/

theorem prefixOfE (l : List Char) : ∀ t, l.isPrefixOf t = true ↔ ∃ r, t = l ++ r := by
  induction l with
  | nil => intro t; simp [List.isPrefixOf]
  | cons a as ih =>
    intro t
    cases t with
    | nil => simp [List.isPrefixOf]
    | cons b bs =>
      simp only [List.isPrefixOf, Bool.and_eq_true, beq_iff_eq, ih bs, List.cons_append,
        List.cons.injEq]
      constructor
      · rintro ⟨hab, r, hr⟩; exact ⟨r, hab.symm, hr⟩
      · rintro ⟨r, hab, hr⟩; exact ⟨hab.symm, r, hr⟩

theorem hasSubL_iff (sub : List Char) : ∀ s, hasSubL sub s = true ↔ ∃ x y, s = x ++ sub ++ y := by
  intro s
  induction s with
  | nil =>
    simp only [hasSubL, List.isEmpty_iff]
    constructor
    · intro h; exact ⟨[], [], by simp [h]⟩
    · rintro ⟨x, y, hxy⟩
      rcases List.append_eq_nil.mp (List.append_eq_nil.mp hxy.symm).1 with ⟨-, h2⟩
      exact h2
  | cons c rest ih =>
    simp only [hasSubL, Bool.or_eq_true, prefixOfE, ih]
    constructor
    · rintro (⟨r, hr⟩ | ⟨x, y, hxy⟩)
      · exact ⟨[], r, by simp [hr]⟩
      · exact ⟨c :: x, y, by simp [hxy]⟩
    · rintro ⟨x, y, hxy⟩
      cases x with
      | nil => exact Or.inl ⟨y, by simpa using hxy⟩
      | cons d x2 =>
        simp only [List.cons_append, List.cons.injEq] at hxy
        exact Or.inr ⟨x2, y, hxy.2⟩

theorem hasSubL_append_r {sub t : List Char} (r : List Char)
    (h : hasSubL sub t = true) : hasSubL sub (t ++ r) = true := by
  rcases (hasSubL_iff sub t).mp h with ⟨x, y, hxy⟩
  exact (hasSubL_iff sub (t ++ r)).mpr ⟨x, y ++ r, by simp [hxy]⟩

theorem hasSubL_append_l {sub t : List Char} (r : List Char)
    (h : hasSubL sub t = true) : hasSubL sub (r ++ t) = true := by
  rcases (hasSubL_iff sub t).mp h with ⟨x, y, hxy⟩
  exact (hasSubL_iff sub (r ++ t)).mpr ⟨r ++ x, y, by simp [hxy]⟩

theorem replFirstL_eq_of_not (old new : List Char) :
    ∀ s, hasSubL old s = false → replFirstL old new s = s := by
  intro s
  induction s with
  | nil => intro h; rfl
  | cons c rest ih =>
    intro h
    simp only [hasSubL, Bool.or_eq_false_iff] at h
    simp [replFirstL, h.1, ih h.2]

theorem replFirstL_decomp (old new : List Char) (hold : old ≠ []) :
    ∀ s, hasSubL old s = true →
      ∃ a b, s = a ++ old ++ b ∧ replFirstL old new s = a ++ new ++ b := by
  intro s
  induction s with
  | nil =>
    intro h
    simp only [hasSubL, List.isEmpty_iff] at h
    exact absurd h hold
  | cons c rest ih =>
    intro h
    cases hp : old.isPrefixOf (c :: rest) with
    | true =>
      rcases (prefixOfE old (c :: rest)).mp hp with ⟨r, hr⟩
      refine ⟨[], r, by simp [hr], ?_⟩
      simp only [replFirstL, hp, if_true, List.nil_append]
      rw [hr, List.drop_left]
    | false =>
      simp only [hasSubL, hp, Bool.false_or] at h
      rcases ih h with ⟨a, b, h1, h2⟩
      refine ⟨c :: a, b, by simp [h1], ?_⟩
      simp [replFirstL, hp, h2]

theorem appendSplit {u v : List Char} :
    ∀ {p q : List Char}, p ++ u = q ++ v → (∃ w, q = p ++ w) ∨ (∃ w, p = q ++ w) := by
  intro p
  induction p with
  | nil => intro q h; exact Or.inl ⟨q, rfl⟩
  | cons a p2 ih =>
    intro q h
    cases q with
    | nil => exact Or.inr ⟨a :: p2, rfl⟩
    | cons b q2 =>
      simp only [List.cons_append, List.cons.injEq] at h
      rcases ih h.2 with ⟨w, hw⟩ | ⟨w, hw⟩
      · exact Or.inl ⟨w, by simp [h.1, hw]⟩
      · exact Or.inr ⟨w, by simp [h.1.symm, hw]⟩

/-- If `old` and `sub` can never overlap, then in any string that decomposes
around an occurrence of `old` and around an occurrence of `sub`, the `sub`
occurrence lies entirely to the left or entirely to the right of the `old`
occurrence. -/
theorem noOverlap_split {old sub : List Char} (hno : noOverlapB old sub = true)
    {a b x y : List Char} (heq : a ++ old ++ b = x ++ sub ++ y) :
    (∃ u v, a = u ++ sub ++ v) ∨ (∃ u v, b = u ++ sub ++ v) := by
  have hno' : ((List.range old.length).all fun d =>
        !((old.drop d).isPrefixOf sub || sub.isPrefixOf (old.drop d))) = true
      ∧ ((List.range sub.length).all fun e =>
        decide (e = 0) || !((sub.drop e).isPrefixOf old || old.isPrefixOf (sub.drop e))) = true := by
    have h := hno
    simp only [noOverlapB, Bool.and_eq_true] at h
    exact h
  have hno1 : ∀ d, d < old.length →
      (old.drop d).isPrefixOf sub = false ∧ sub.isPrefixOf (old.drop d) = false := by
    intro d hd
    have h := (List.all_eq_true.mp hno'.1) d (List.mem_range.mpr hd)
    simpa [Bool.or_eq_false_iff] using h
  have hno2 : ∀ e, e < sub.length → e ≠ 0 →
      (sub.drop e).isPrefixOf old = false ∧ old.isPrefixOf (sub.drop e) = false := by
    intro e he hne
    have h := (List.all_eq_true.mp hno'.2) e (List.mem_range.mpr he)
    have h1 : (!((sub.drop e).isPrefixOf old || old.isPrefixOf (sub.drop e))) = true := by
      simpa [hne] using h
    simpa [Bool.or_eq_false_iff] using h1
  have heq2 : a ++ (old ++ b) = (x ++ sub) ++ y := by
    simpa [List.append_assoc] using heq
  have heq3 : (a ++ old) ++ b = x ++ (sub ++ y) := by
    simpa [List.append_assoc] using heq
  by_cases h1 : x.length + sub.length ≤ a.length
  · left
    have hxs : a.take (x.length + sub.length) = x ++ sub := by
      have ht1 : (a ++ (old ++ b)).take (x.length + sub.length)
          = a.take (x.length + sub.length) :=
        List.take_append_of_le_length h1
      have ht2 : ((x ++ sub) ++ y).take (x.length + sub.length) = x ++ sub :=
        List.take_left' (by simp)
      rw [← ht1, heq2, ht2]
    refine ⟨x, a.drop (x.length + sub.length), ?_⟩
    conv_lhs => rw [← List.take_append_drop (x.length + sub.length) a]
    rw [hxs, List.append_assoc]
  by_cases h2 : a.length + old.length ≤ x.length
  · right
    have hb : ((a ++ old) ++ b).drop (a.length + old.length) = b := List.drop_left' (by simp)
    have hd2 : (x ++ (sub ++ y)).drop (a.length + old.length)
        = x.drop (a.length + old.length) ++ (sub ++ y) :=
      List.drop_append_of_le_length h2
    refine ⟨x.drop (a.length + old.length), y, ?_⟩
    rw [← hb, heq3, hd2, List.append_assoc]
  · push_neg at h1 h2
    by_cases h3 : a.length ≤ x.length
    · exfalso
      have hdlt : x.length - a.length < old.length := by omega
      have e1 : (x ++ (sub ++ y)).drop x.length = sub ++ y := List.drop_left x (sub ++ y)
      have e2 : (a ++ (old ++ b)).drop x.length = (old ++ b).drop (x.length - a.length) := by
        have hxl : x.length = a.length + (x.length - a.length) := by omega
        conv_lhs => rw [hxl]
        rw [← List.drop_drop, List.drop_left]
      have e3 : (old ++ b).drop (x.length - a.length)
          = old.drop (x.length - a.length) ++ b :=
        List.drop_append_of_le_length (le_of_lt hdlt)
      have key : old.drop (x.length - a.length) ++ b = sub ++ y := by
        rw [← e3, ← e2]
        rw [show a ++ (old ++ b) = x ++ (sub ++ y) by simpa [List.append_assoc] using heq]
        exact e1
      rcases appendSplit key with ⟨w, hw⟩ | ⟨w, hw⟩
      · have hpre : (old.drop (x.length - a.length)).isPrefixOf sub = true :=
          (prefixOfE _ _).mpr ⟨w, hw⟩
        rw [(hno1 _ hdlt).1] at hpre
        exact Bool.false_ne_true hpre
      · have hpre : sub.isPrefixOf (old.drop (x.length - a.length)) = true :=
          (prefixOfE _ _).mpr ⟨w, hw⟩
        rw [(hno1 _ hdlt).2] at hpre
        exact Bool.false_ne_true hpre
    · exfalso
      push_neg at h3
      have helt : a.length - x.length < sub.length := by omega
      have hene : a.length - x.length ≠ 0 := by omega
      have e1 : (a ++ (old ++ b)).drop a.length = old ++ b := List.drop_left a (old ++ b)
      have e2 : (x ++ (sub ++ y)).drop a.length = (sub ++ y).drop (a.length - x.length) := by
        have hal : a.length = x.length + (a.length - x.length) := by omega
        conv_lhs => rw [hal]
        rw [← List.drop_drop, List.drop_left]
      have e3 : (sub ++ y).drop (a.length - x.length)
          = sub.drop (a.length - x.length) ++ y :=
        List.drop_append_of_le_length (le_of_lt helt)
      have key : sub.drop (a.length - x.length) ++ y = old ++ b := by
        rw [← e3, ← e2]
        rw [show x ++ (sub ++ y) = a ++ (old ++ b) by simpa [List.append_assoc] using heq.symm]
        exact e1
      rcases appendSplit key with ⟨w, hw⟩ | ⟨w, hw⟩
      · have hpre : (sub.drop (a.length - x.length)).isPrefixOf old = true :=
          (prefixOfE _ _).mpr ⟨w, hw⟩
        rw [(hno2 _ helt hene).1] at hpre
        exact Bool.false_ne_true hpre
      · have hpre : old.isPrefixOf (sub.drop (a.length - x.length)) = true :=
          (prefixOfE _ _).mpr ⟨w, hw⟩
        rw [(hno2 _ helt hene).2] at hpre
        exact Bool.false_ne_true hpre

/-- Replacing the first occurrence of `old` preserves an occurrence of a
non-overlapping `sub`. -/
theorem hasSubL_replFirstL {old sub : List Char} (new : List Char)
    (hno : noOverlapB old sub = true) (hold : old ≠ [])
    {s : List Char} (h : hasSubL sub s = true) :
    hasSubL sub (replFirstL old new s) = true := by
  cases hre : hasSubL old s with
  | false => rw [replFirstL_eq_of_not old new s hre]; exact h
  | true =>
    rcases replFirstL_decomp old new hold s hre with ⟨a, b, hs, hrepl⟩
    rcases (hasSubL_iff sub s).mp h with ⟨x, y, hxy⟩
    rw [hrepl]
    rcases noOverlap_split hno (by rw [← hs, hxy]) with ⟨u, v, ha⟩ | ⟨u, v, hb⟩
    · exact (hasSubL_iff sub _).mpr ⟨u, v ++ new ++ b, by simp [ha]⟩
    · exact (hasSubL_iff sub _).mpr ⟨a ++ new ++ u, v, by simp [hb]⟩

/-! ### String-level lifts -/

theorem strData_append (s t : String) : (s ++ t).data = s.data ++ t.data := rfl

theorem strOfDataEmpty (s : String) (h : s.data = []) : s = "" := by
  cases s with
  | mk d => cases h; rfl

theorem containsStr_append_r {s sub : String} (t : String)
    (h : containsStr s sub = true) : containsStr (s ++ t) sub = true := by
  unfold containsStr at *
  rw [strData_append]
  exact hasSubL_append_r t.data h

theorem replaceFirst_no_occ {s old : String} (new : String) (hold : old ≠ "")
    (h : containsStr s old = false) : replaceFirst s old new = s := by
  unfold replaceFirst
  rw [if_neg hold]
  unfold containsStr at h
  rw [replFirstL_eq_of_not old.data new.data s.data h]

theorem containsStr_replaceFirst {s old sub : String} (new : String)
    (hno : noOverlapB old.data sub.data = true) (hold : old ≠ "")
    (h : containsStr s sub = true) : containsStr (replaceFirst s old new) sub = true := by
  unfold replaceFirst
  rw [if_neg hold]
  unfold containsStr at *
  exact hasSubL_replFirstL new.data hno
    (fun hd => hold (strOfDataEmpty old hd)) h

/-! ### Lemmas about the rendering folds -/

theorem applyDataTokens_id (data : List (String × Value)) (o : String)
    (h : ∀ kv ∈ data, kv.1 = RequestIdKey ∨ containsStr o (FormatIdentifier kv.1) = false) :
    applyDataTokens data o = o := by
  induction data with
  | nil => rfl
  | cons kv rest ih =>
    have hstep : customSub o kv = o := by
      rcases h kv (List.mem_cons_self kv rest) with hk | hc
      · simp [customSub, hk]
      · by_cases hk : kv.1 = RequestIdKey
        · simp [customSub, hk]
        · simp [customSub, hk, hc]
    show List.foldl customSub (customSub o kv) rest = o
    rw [hstep]
    exact ih (fun p hp => h p (List.mem_cons_of_mem kv hp))

theorem textDataStep_mono {acc sub : String} (sep : String) (kv : String × Value)
    (h : containsStr acc sub = true) :
    containsStr (textDataStep sep acc kv) sub = true := by
  unfold textDataStep
  by_cases h1 : kv.1 = RequestIdKey
  · simpa [h1] using h
  · rw [if_neg h1]
    by_cases h2 : containsStr acc (FormatIdentifier kv.1) = true
    · simpa [h2] using h
    · rw [if_neg h2]
      rcases kv with ⟨k, v⟩
      cases v with
      | vmap m =>
        cases hj : jsonMarshalValue (Value.vmap m) with
        | some j =>
          simp only [hj]
          simpa [String.append_assoc] using
            containsStr_append_r (sep ++ " " ++ k ++ " = " ++ goSprintBytes (goBytes j)) h
        | none =>
          simp only [hj]
          simpa [String.append_assoc] using
            containsStr_append_r (sep ++ " " ++ k ++ " = " ++ gostring (Value.vmap m)) h
      | vstr s =>
        simpa [String.append_assoc] using
          containsStr_append_r (sep ++ " " ++ k ++ " = " ++ gostring (Value.vstr s)) h
      | vint n =>
        simpa [String.append_assoc] using
          containsStr_append_r (sep ++ " " ++ k ++ " = " ++ gostring (Value.vint n)) h
      | vfunc r =>
        simpa [String.append_assoc] using
          containsStr_append_r (sep ++ " " ++ k ++ " = " ++ gostring (Value.vfunc r)) h

theorem textFold_mono (data : List (String × Value)) {acc sub : String} (sep : String)
    (h : containsStr acc sub = true) :
    containsStr (List.foldl (textDataStep sep) acc data) sub = true := by
  induction data generalizing acc with
  | nil => exact h
  | cons kv rest ih =>
    exact ih (textDataStep_mono sep kv h)

theorem applySetter_sep (f : customFormatter) (c : OtherSetter) :
    (applySetter f c).textDataSeparator = f.textDataSeparator := by
  cases c <;> rfl

theorem applySetters_sep (l : List OtherSetter) (f : customFormatter) :
    (applySetters f l).textDataSeparator = f.textDataSeparator := by
  induction l generalizing f with
  | nil => rfl
  | cons c rest ih =>
    show (applySetters (applySetter f c) rest).textDataSeparator = _
    rw [ih (applySetter f c), applySetter_sep]

/-! ### Claims -/

set_option maxRecDepth 100000 in
/-- C1: evaluating the code at a concrete JSON-mode input (default template,
level INFO, message "hi", no fields).  `jsonFormat` returns
`[]byte(fmt.Sprintln(output))` where `output` is the `[]byte` produced by
`json.Marshal`, and `fmt.Sprintln` renders a byte slice as its decimal byte
values in brackets — so the returned bytes are the text
`"[123 34 116 ...]\n"`, not the JSON object text, refuting the claim that
the returned byte sequence is valid JSON that decodes to an object. -/
theorem C1_json_mode_prints_decimal_bytes :
    Format blW cfgC1 eC1 =
      some ("[123 34 116 105 109 101 115 116 97 109 112 34 58 34 50 48 50 48 45 48 49 45 48 50 84 48 51 58 48 52 58 48 53 90 34 44 34 108 101 118 101 108 34 58 34 73 78 70 79 34 44 34 109 101 115 115 97 103 101 34 58 34 91 50 48 50 48 45 48 49 45 48 50 84 48 51 58 48 52 58 48 53 90 93 32 91 32 73 78 70 79 93 32 104 105 34 125]\n",
        none)
    ∧ (goBytes "\x7b").headI = 123 := ⟨by decide, rfl⟩

/-- C2: evaluating the code at a concrete text-mode input.  The template
`"pre <region>"` consumes the field `region` (it is substituted, yielding
`"pre us-east"`), yet `textFormat` still appends `" | region = us-east"`,
because its `strings.Contains(output, "<region>")` guard tests the
post-substitution output, where the token is already gone.  This refutes the
claim that a consumed field is excluded from the appended pairs. -/
theorem C2_consumed_field_still_appended :
    Format blW cfgC2 eC2 = some ("pre us-east | region = us-east\n", none)
    ∧ containsStr "pre us-east | region = us-east\n" "region = us-east" = true :=
  ⟨rfl, rfl⟩

/-- C3: the two entries hold the same field map `{"a":"1","b":"2"}` (their
association lists are permutations of one another), differing only in the
iteration order that Go's randomized map `range` may produce — yet `Format`
yields different bytes, refuting byte-identical output for identical
Record and Configuration. -/
theorem C3_output_depends_on_iteration_order :
    e3A.data.Perm e3B.data ∧ Format blW cfgC3 e3A ≠ Format blW cfgC3 e3B := by
  constructor
  · exact List.Perm.swap ("b", Value.vstr "2") ("a", Value.vstr "1") []
  · have hA : Format blW cfgC3 e3A = some ("m | a = 1 | b = 2\n", none) := rfl
    have hB : Format blW cfgC3 e3B = some ("m | b = 2 | a = 1\n", none) := rfl
    rw [hA, hB]
    decide

/-- C4 counterexample: with `isDefaultTemplate = false`, template
`"hello [<msg>]"` and an empty message, the code elides `" [<msg>]"`
(output `"hello"`), instead of leaving the `<msg>` token verbatim as the
claim states for non-default templates. -/
theorem C4_cex_elision_fires_for_nondefault :
    getMessage cfgC4 eC4 = some "hello" ∧ containsStr "hello" logMsgKey = false :=
  ⟨rfl, rfl⟩

/-- C5 counterexample: the record lacks `X-Request-ID` and the template is
non-default and contains `<id>` — but a field literally keyed `"id"` makes
the custom-field pass substitute the `<id>` token, so it does not remain
verbatim in the rendered output. -/
theorem C5_cex_id_field_key_substitutes_token :
    Format blW cfgC5 eC5 = some ("a X id = X\n", none)
    ∧ containsStr cfgC5.MsgFormat logIdKey = true
    ∧ containsStr "a X id = X\n" logIdKey = false :=
  ⟨rfl, rfl, rfl⟩

/-- C9 counterexample: a configuration built by `NewFormatter` on which the
separator setter was never called has an empty separator, so the appended
pair is rendered `" region = us-east"` with no `" |"` — refuting the claim
that such configurations use the default separator `" |"`. -/
theorem C9_cex_newformatter_empty_separator :
    Format blW cfgC9 eC9 = some ("x region = us-east\n", none)
    ∧ containsStr "x region = us-east\n" defaultDataSeparator = false :=
  ⟨rfl, rfl⟩

/-- C4 (amended): for a record with empty message, the `" [<msg>]"` elision
is applied independently of `isDefaultTemplate`: whenever the id field is
absent and the time/level-rendered template contains no `" [<id>]"`
sub-sequence (so the id stage is a no-op either way), the default and
non-default configurations render identically — the flag influences only the
id segment, never the message elision. -/
theorem C4_amended_flag_immaterial_for_msg (f : customFormatter) (e : Entry)
    (_hmsg : e.message = "")
    (hid : List.lookup RequestIdKey e.data = none)
    (hnc : containsStr (initialOutput f e) (" [" ++ logIdKey ++ "]") = false) :
    getMessage { f with isDefault := true } e = getMessage { f with isDefault := false } e := by
  have hio : ∀ b, initialOutput { f with isDefault := b } e = initialOutput f e :=
    fun b => rfl
  unfold getMessage resolveId
  rw [hio true, hio false, hid]
  simp only [if_true, if_false]
  rw [replaceFirst_no_occ "" (by decide) hnc]
  simp

/-- Witness for C4 (amended) at template `"hello [<msg>]"` with empty
message and no id field. -/
theorem C4_amended_witness :
    getMessage { cfgC4 with isDefault := true } eC4
      = getMessage { cfgC4 with isDefault := false } eC4 :=
  C4_amended_flag_immaterial_for_msg cfgC4 eC4 rfl rfl rfl

/-- C5 (amended): if the record lacks `X-Request-ID`, the configuration is
non-default, the template contains `<id>`, and additionally no other field's
placeholder token occurs in the time/level-rendered template (so the
custom-field pass substitutes nothing), then the literal `<id>` token
remains verbatim in the templated message and in the full text-mode
rendering. -/
theorem C5_amended_id_token_verbatim (f : customFormatter) (e : Entry)
    (hdef : f.isDefault = false)
    (hid : List.lookup RequestIdKey e.data = none)
    (htmpl : containsStr f.MsgFormat logIdKey = true)
    (hfields : ∀ kv ∈ e.data,
      kv.1 = RequestIdKey ∨ containsStr (initialOutput f e) (FormatIdentifier kv.1) = false) :
    ∃ m out, getMessage f e = some m ∧ containsStr m logIdKey = true
      ∧ textFormat f e = some (out, none) ∧ containsStr out logIdKey = true := by
  have h1 : containsStr (initialOutput f e) logIdKey = true := by
    unfold initialOutput
    exact containsStr_replaceFirst _ (by decide) (by decide)
      (containsStr_replaceFirst _ (by decide) (by decide) htmpl)
  have hres : resolveId f e (initialOutput f e) = some (initialOutput f e) := by
    unfold resolveId
    rw [hid, hdef]
    simp only [Bool.false_eq_true, if_false]
  have h2 : applyDataTokens e.data (initialOutput f e) = initialOutput f e :=
    applyDataTokens_id _ _ hfields
  have h3 : containsStr (resolveMsg e.message (initialOutput f e)) logIdKey = true := by
    unfold resolveMsg
    by_cases hm : e.message ≠ ""
    · rw [if_pos hm]
      exact containsStr_replaceFirst _ (by decide) (by decide) h1
    · rw [if_neg hm]
      exact containsStr_replaceFirst _ (by decide) (by decide) h1
  have hget : getMessage f e = some (resolveMsg e.message (initialOutput f e)) := by
    unfold getMessage
    rw [hres]
    simp [h2]
  refine ⟨resolveMsg e.message (initialOutput f e),
    List.foldl (textDataStep f.textDataSeparator)
      (resolveMsg e.message (initialOutput f e)) e.data ++ "\n",
    hget, h3, ?_, ?_⟩
  · unfold textFormat
    rw [hget]
    rfl
  · exact containsStr_append_r "\n" (textFold_mono e.data f.textDataSeparator h3)

/-- Witness for C5 (amended) at template `"a <id> b"` with no fields. -/
theorem C5_amended_witness :
    ∃ m out, getMessage cfgC5w eC5w = some m ∧ containsStr m logIdKey = true
      ∧ textFormat cfgC5w eC5w = some (out, none) ∧ containsStr out logIdKey = true :=
  C5_amended_id_token_verbatim cfgC5w eC5w rfl rfl (by decide) (by simp [eC5w])

/-- C6: the `timestamp` field of the JSON output struct is formatted with the
fixed `defaultTimeFormat` (RFC3339) regardless of the configured `timeLayout`:
two configurations differing only in `TimeFormat` yield the same timestamp
field, and whenever the record is produced it equals
`entry.Time.Format(defaultTimeFormat)`. -/
theorem C6_json_timestamp_fixed_layout (f : customFormatter) (a b : String) (e : Entry) :
    (jsonOutputRecord { f with TimeFormat := a } e).map (fun r => r.Timestamp)
      = (jsonOutputRecord { f with TimeFormat := b } e).map (fun r => r.Timestamp)
    ∧ (jsonOutputRecord f e).map (fun r => r.Timestamp)
      = (jsonOutputRecord f e).map (fun _ => e.time defaultTimeFormat) := by
  have key : ∀ g : customFormatter, (jsonOutputRecord g e).map (fun r => r.Timestamp)
      = (getMessage g e).map (fun _ => e.time defaultTimeFormat) := by
    intro g
    unfold jsonOutputRecord
    cases hm : getMessage g e with
    | none => rfl
    | some msg =>
      cases hl : List.lookup RequestIdKey e.data with
      | none => simp
      | some v =>
        cases hv : Value.asString v with
        | none =>
          exfalso
          unfold getMessage resolveId at hm
          simp [hl, hv] at hm
        | some s => simp [hv]
  have key2 : ∀ g : customFormatter, (jsonOutputRecord g e).map (fun _ => e.time defaultTimeFormat)
      = (getMessage g e).map (fun _ => e.time defaultTimeFormat) := by
    intro g
    unfold jsonOutputRecord
    cases hm : getMessage g e with
    | none => rfl
    | some msg =>
      cases hl : List.lookup RequestIdKey e.data with
      | none => simp
      | some v =>
        cases hv : Value.asString v with
        | none =>
          exfalso
          unfold getMessage resolveId at hm
          simp [hl, hv] at hm
        | some s => simp [hv]
  have hsame : ∀ t1 t2 : String,
      (getMessage { f with TimeFormat := t1 } e).map (fun _ => e.time defaultTimeFormat)
        = (getMessage { f with TimeFormat := t2 } e).map (fun _ => e.time defaultTimeFormat) := by
    intro t1 t2
    unfold getMessage resolveId
    cases hl : List.lookup RequestIdKey e.data with
    | none => simp
    | some v =>
      cases hv : Value.asString v with
      | none => simp [hv]
      | some s => simp [hv]
  exact ⟨by rw [key, key, hsame a b], by rw [key, key2]⟩

/-- C7: in text mode (non-empty template, JSON output disabled), whenever
`Format` returns at all, the returned error is nil — the text rendering path
cannot fail. -/
theorem C7_text_mode_nil_error (bl : Entry → Option (String × Option Unit))
    (f : customFormatter) (e : Entry) (r : String × Option Unit)
    (hne : ¬ f.MsgFormat = "") (hjson : f.jsonOutput = false)
    (hr : Format bl f e = some r) : r.2 = none := by
  unfold Format at hr
  rw [if_neg hne, hjson] at hr
  simp only [Bool.false_eq_true, if_false] at hr
  unfold textFormat at hr
  cases hm : getMessage f e with
  | none => rw [hm] at hr; exact absurd hr (by simp)
  | some m =>
    rw [hm] at hr
    have hr2 : some (List.foldl (textDataStep f.textDataSeparator) m e.data ++ "\n",
        (none : Option Unit)) = some r := hr
    injection hr2 with hr3
    rw [← hr3]

/-- Witness for C7 at template `"m"` with no fields. -/
theorem C7_witness : (("m\n", (none : Option Unit))).2 = none :=
  C7_text_mode_nil_error blW cfgC7 eC7 ("m\n", none) (by decide) rfl rfl

/-- C8: in text mode, a field whose value is a nested map that
`json.Marshal` rejects is still appended, using the value's default string
representation instead of the JSON encoding (the loop body falls through to
the default `Sprintf`), and the render as a whole still succeeds. -/
theorem C8_nested_map_marshal_fallback (sep acc k : String) (m : List (String × Value))
    (f : customFormatter) (e : Entry) (msg : String)
    (hmar : jsonMarshalValue (Value.vmap m) = none)
    (hk : ¬ k = RequestIdKey)
    (hnc : containsStr acc (FormatIdentifier k) = false)
    (hmsg : getMessage f e = some msg) :
    textDataStep sep acc (k, Value.vmap m)
      = acc ++ sep ++ " " ++ k ++ " = " ++ gostring (Value.vmap m)
    ∧ ∃ out, textFormat f e = some (out, none) := by
  constructor
  · simp [textDataStep, hk, hnc, hmar]
  · simp [textFormat, hmsg]

/-- Witness for C8 with the unmarshalable nested map `badMap`. -/
theorem C8_witness :
    textDataStep " |" "m" ("cfg", Value.vmap badMap)
      = "m" ++ " |" ++ " " ++ "cfg" ++ " = " ++ gostring (Value.vmap badMap)
    ∧ ∃ out, textFormat cfgC7 eC7 = some (out, none) :=
  C8_nested_map_marshal_fallback " |" "m" "cfg" badMap cfgC7 eC7 "m" rfl (by decide) rfl rfl

/-- C9 (amended): only configurations constructed by `DefaultFormatter`
default the separator to `" |"`; `NewFormatter` initializes it to the empty
string.  In both cases any chain of non-separator setter calls leaves the
separator unchanged. -/
theorem C9_amended_separator_defaults :
    (∀ (p : String) (l : List OtherSetter),
        (applySetters (DefaultFormatter p) l).textDataSeparator = defaultDataSeparator)
    ∧ defaultDataSeparator = " |"
    ∧ (∀ l : List OtherSetter, (applySetters NewFormatter l).textDataSeparator = "") := by
  refine ⟨fun p l => ?_, rfl, fun l => ?_⟩
  · rw [applySetters_sep]; rfl
  · rw [applySetters_sep]; rfl

/-- C10: with a non-empty template, if the `X-Request-ID` field holds a
non-string value, `Format` panics (the unchecked `id.(string)` assertion,
modelled as `none`) in both text and JSON mode; and whenever the id value is
absent or a string, `Format` returns normally. -/
theorem C10_nonstring_id_panics (bl : Entry → Option (String × Option Unit))
    (f : customFormatter) (e : Entry)
    (hne : ¬ f.MsgFormat = "") :
    (∀ v, List.lookup RequestIdKey e.data = some v → Value.asString v = none →
        Format bl f e = none)
    ∧ ((List.lookup RequestIdKey e.data = none
          ∨ ∃ s, List.lookup RequestIdKey e.data = some (Value.vstr s)) →
        ∃ r, Format bl f e = some r) := by
  constructor
  · intro v hv hs
    have hget : getMessage f e = none := by
      unfold getMessage resolveId
      simp [hv, hs]
    unfold Format
    rw [if_neg hne]
    cases hj : f.jsonOutput
    · simp [textFormat, hget]
    · simp [jsonFormat, jsonOutputRecord, hget]
  · intro hcase
    have hjsonTot : ∀ rr, jsonOutputRecord f e = some rr →
        ∃ r, jsonFormat f e = some r := by
      intro rr h
      unfold jsonFormat
      rw [h]
      exact ⟨_, rfl⟩
    rcases hcase with hl | ⟨s, hl⟩
    · obtain ⟨o, ho⟩ : ∃ o, resolveId f e (initialOutput f e) = some o := by
        unfold resolveId
        rw [hl]
        exact ⟨_, rfl⟩
      have hget : getMessage f e
          = some (resolveMsg e.message (applyDataTokens e.data o)) := by
        unfold getMessage
        rw [ho]
        rfl
      unfold Format
      rw [if_neg hne]
      cases hj : f.jsonOutput
      · simp [textFormat, hget]
      · obtain ⟨rr, hrr⟩ : ∃ rr, jsonOutputRecord f e = some rr := by
          unfold jsonOutputRecord
          rw [hget]
          simp [hl, Value.asString]
        exact hjsonTot rr hrr
    · have ho : resolveId f e (initialOutput f e)
          = some (replaceFirst (initialOutput f e) logIdKey s) := by
        unfold resolveId
        rw [hl]
        rfl
      have hget : getMessage f e = some (resolveMsg e.message
          (applyDataTokens e.data (replaceFirst (initialOutput f e) logIdKey s))) := by
        unfold getMessage
        rw [ho]
        rfl
      unfold Format
      rw [if_neg hne]
      cases hj : f.jsonOutput
      · simp [textFormat, hget]
      · obtain ⟨rr, hrr⟩ : ∃ rr, jsonOutputRecord f e = some rr := by
          unfold jsonOutputRecord
          rw [hget]
          simp [hl, Value.asString]
        exact hjsonTot rr hrr

/-- Witness for C10: `X-Request-ID` bound to the integer 7 makes `Format`
panic in text mode and in JSON mode. -/
theorem C10_witness :
    Format blW cfgC7 eBadId = none ∧ Format blW (SetJsonOutput cfgC7) eBadId = none :=
  ⟨(C10_nonstring_id_panics blW cfgC7 eBadId (by decide)).1 (Value.vint 7) rfl rfl,
   (C10_nonstring_id_panics blW (SetJsonOutput cfgC7) eBadId (by decide)).1 (Value.vint 7) rfl rfl⟩

end Logger
